import Mathlib

/-!
Verification of the QuantLibTest repository: a small example program that
assembles a European put option (spot 36, strike 40, rate 6%, dividend 0,
volatility 20%, maturity 17-May-1999) and prices it through an analytic
Black-Scholes-Merton engine, printing the net present value.

The two C++ source files (QuantLibTest3/QuantLibTest3.cpp and the unnamed
near-duplicate) only assemble inputs and invoke the external QuantLib
library; the closed-form pricing algorithm itself is library code that is
not part of the repository, so it is modelled here from the specification.
Dates, day counts, the input assembly of each file, the global-settings
mutation, and the structure of main are embedded from the sources.
-/

open Real MeasureTheory Set Filter

namespace QuantLibTest

/-! ## Dates and day counting

The C++ sources construct `Date(day, month, year)` values and use the
Actual/365-fixed day counter; a date is modelled by its civil components
and a serial day number (days-from-civil, proleptic Gregorian). -/

/-- Serial day number of a Gregorian civil date (year, month 1-12,
day 1-31), counted from the epoch 0000-03-01. -/
def daysFromCivil (y m d : ℕ) : ℕ :=
  let y2 := if m ≤ 2 then y - 1 else y
  let era := y2 / 400
  let yoe := y2 % 400
  let mp := (m + 9) % 12
  let doy := (153 * mp + 2) / 5 + (d - 1)
  era * 146097 + (yoe * 365 + yoe / 4 - yoe / 100) + doy

/-- A calendar date as constructed in the sources: `Date(day, month, year)`. -/
structure Date where
  day : ℕ
  month : ℕ
  year : ℕ
deriving DecidableEq

/-- Serial number of a date. -/
def Date.serial (dt : Date) : ℕ := daysFromCivil dt.year dt.month dt.day

/-- The day-count convention used by the example (`Actual365Fixed()`). -/
inductive DayCounter where
  | Actual365Fixed
deriving DecidableEq

/-- Year fraction between two dates: actual day count over 365. -/
noncomputable def DayCounter.yearFraction : DayCounter → Date → Date → ℝ
  | .Actual365Fixed, a, b => ((b.serial : ℝ) - (a.serial : ℝ)) / 365

/-! ## The option data model -/

/-- Option kind, mirroring `Option::Type` (`Option::Call` / `Option::Put`). -/
inductive OptionType where
  | Call
  | Put
deriving DecidableEq

/-- The standard normal density up to normalisation, `exp (-t^2/2)`. -/
noncomputable def stdGaussian (t : ℝ) : ℝ := Real.exp (-(t ^ 2) / 2)

/-- The standard normal cumulative distribution function
`Φ(x) = (∫_{-∞}^x exp (-t^2/2) dt) / √(2π)`. -/
noncomputable def stdNormalCdf (x : ℝ) : ℝ :=
  (∫ t in Iic x, stdGaussian t) / Real.sqrt (2 * π)

/-- The Black-Scholes auxiliary quantity
`d1 = (ln(S/K) + (r − q + σ²/2)·T) / (σ·√T)`. -/
noncomputable def d1 (S K r q σ T : ℝ) : ℝ :=
  (Real.log (S / K) + (r - q + σ ^ 2 / 2) * T) / (σ * Real.sqrt T)

/-- The Black-Scholes auxiliary quantity `d2 = d1 − σ·√T`. -/
noncomputable def d2 (S K r q σ T : ℝ) : ℝ :=
  d1 S K r q σ T - σ * Real.sqrt T

/-- Modelled from the spec: the analytic Black-Scholes-Merton European
option price. The closed-form engine invoked by `BlackScholes` /
`BlackScholesEx` (QuantLib's `AnalyticEuropeanEngine`) is external library
code absent from the repository sources, so this follows the spec's
algorithm: the Φ-formula for `T > 0, σ > 0`, the intrinsic value
`max(S−K,0)` / `max(K−S,0)` when `T = 0`, and the discounted intrinsic
value at the forward `F = S·e^((r−q)T)` when `σ = 0, T > 0`. -/
noncomputable def bsPrice (ty : OptionType) (S K r q σ T : ℝ) : ℝ :=
  if T = 0 then
    match ty with
    | .Call => max (S - K) 0
    | .Put => max (K - S) 0
  else if σ = 0 then
    match ty with
    | .Call => Real.exp (-(r * T)) * max (S * Real.exp ((r - q) * T) - K) 0
    | .Put => Real.exp (-(r * T)) * max (K - S * Real.exp ((r - q) * T)) 0
  else
    match ty with
    | .Call =>
        S * Real.exp (-(q * T)) * stdNormalCdf (d1 S K r q σ T) -
          K * Real.exp (-(r * T)) * stdNormalCdf (d2 S K r q σ T)
    | .Put =>
        K * Real.exp (-(r * T)) * stdNormalCdf (-d2 S K r q σ T) -
          S * Real.exp (-(q * T)) * stdNormalCdf (-d1 S K r q σ T)

/-! ## Properties of the standard normal cdf -/

theorem stdGaussian_eq (t : ℝ) : stdGaussian t = Real.exp (-(1 / 2 : ℝ) * t ^ 2) := by
  unfold stdGaussian
  congr 1
  ring

theorem stdGaussian_pos (t : ℝ) : 0 < stdGaussian t := Real.exp_pos _

theorem stdGaussian_neg (t : ℝ) : stdGaussian (-t) = stdGaussian t := by
  unfold stdGaussian
  rw [neg_sq]

theorem continuous_stdGaussian : Continuous stdGaussian := by
  unfold stdGaussian
  fun_prop

theorem integrable_stdGaussian : Integrable stdGaussian := by
  have h := integrable_exp_neg_mul_sq (b := (1 / 2 : ℝ)) (by norm_num)
  have e : (fun x : ℝ => Real.exp (-(1 / 2 : ℝ) * x ^ 2)) = stdGaussian := by
    funext t
    rw [stdGaussian_eq]
  rwa [e] at h

theorem integral_stdGaussian : ∫ t, stdGaussian t = Real.sqrt (2 * π) := by
  have e : (fun x : ℝ => Real.exp (-(1 / 2 : ℝ) * x ^ 2)) = stdGaussian := by
    funext t
    rw [stdGaussian_eq]
  have h := integral_gaussian (1 / 2 : ℝ)
  rw [e] at h
  rw [h]
  congr 1
  ring

theorem sqrt_two_pi_pos : 0 < Real.sqrt (2 * π) :=
  Real.sqrt_pos.mpr (by positivity)

theorem stdNormalCdf_neg (x : ℝ) : stdNormalCdf (-x) = 1 - stdNormalCdf x := by
  unfold stdNormalCdf
  have h1 : ∫ t in Iic (-x), stdGaussian t = ∫ t in Ioi x, stdGaussian t := by
    have h := integral_comp_neg_Iic (-x) stdGaussian
    simp only [stdGaussian_neg, neg_neg] at h
    exact h
  have h2 : (∫ t in Iic x, stdGaussian t) + ∫ t in Ioi x, stdGaussian t
      = Real.sqrt (2 * π) := by
    rw [← integral_stdGaussian]
    exact intervalIntegral.integral_Iic_add_Ioi
      integrable_stdGaussian.integrableOn integrable_stdGaussian.integrableOn
  rw [h1, eq_sub_iff_add_eq, div_add_div_same, div_eq_one_iff_eq sqrt_two_pi_pos.ne.symm]
  linarith

theorem stdNormalCdf_zero : stdNormalCdf 0 = 1 / 2 := by
  have h := stdNormalCdf_neg 0
  rw [neg_zero] at h
  linarith

theorem monotone_stdNormalCdf : Monotone stdNormalCdf := by
  intro a b hab
  unfold stdNormalCdf
  gcongr
  exact MeasureTheory.setIntegral_mono_set integrable_stdGaussian.integrableOn
    (Eventually.of_forall fun t => (stdGaussian_pos t).le)
    (HasSubset.Subset.eventuallyLE (Iic_subset_Iic.mpr hab))

theorem stdNormalCdf_nonneg (x : ℝ) : 0 ≤ stdNormalCdf x :=
  div_nonneg
    (MeasureTheory.setIntegral_nonneg measurableSet_Iic fun t _ => (stdGaussian_pos t).le)
    (Real.sqrt_nonneg _)

theorem stdNormalCdf_le_one (x : ℝ) : stdNormalCdf x ≤ 1 := by
  unfold stdNormalCdf
  rw [div_le_one sqrt_two_pi_pos, ← integral_stdGaussian]
  exact MeasureTheory.setIntegral_le_integral integrable_stdGaussian
    (Eventually.of_forall fun t => (stdGaussian_pos t).le)

theorem stdNormalCdf_eq_half_add (x : ℝ) :
    stdNormalCdf x = 1 / 2 + (∫ t in (0 : ℝ)..x, stdGaussian t) / Real.sqrt (2 * π) := by
  have h := intervalIntegral.integral_Iic_sub_Iic (μ := volume) (f := stdGaussian)
    (a := 0) (b := x) integrable_stdGaussian.integrableOn integrable_stdGaussian.integrableOn
  have h0 : (∫ t in Iic (0 : ℝ), stdGaussian t) / Real.sqrt (2 * π) = 1 / 2 :=
    stdNormalCdf_zero
  unfold stdNormalCdf
  rw [← h, sub_div, h0]
  ring

theorem hasDerivAt_stdNormalCdf (x : ℝ) :
    HasDerivAt stdNormalCdf (stdGaussian x / Real.sqrt (2 * π)) x := by
  have h1 : HasDerivAt (fun u => ∫ t in (0 : ℝ)..u, stdGaussian t) (stdGaussian x) x :=
    intervalIntegral.integral_hasDerivAt_right
      (continuous_stdGaussian.intervalIntegrable 0 x)
      (continuous_stdGaussian.stronglyMeasurableAtFilter volume (nhds x))
      continuous_stdGaussian.continuousAt
  have h2 := (h1.div_const (Real.sqrt (2 * π))).const_add (1 / 2 : ℝ)
  have e : stdNormalCdf =
      fun u => 1 / 2 + (∫ t in (0 : ℝ)..u, stdGaussian t) / Real.sqrt (2 * π) :=
    funext stdNormalCdf_eq_half_add
  rw [e]
  exact h2

theorem continuous_stdNormalCdf : Continuous stdNormalCdf :=
  continuous_iff_continuousAt.mpr fun x => (hasDerivAt_stdNormalCdf x).continuousAt

theorem tendsto_stdNormalCdf_atTop : Tendsto stdNormalCdf atTop (nhds 1) := by
  have h0 : Tendsto (fun x : ℝ => ∫ t in (0 : ℝ)..x, stdGaussian t) atTop
      (nhds (∫ t in Ioi (0 : ℝ), stdGaussian t)) :=
    intervalIntegral_tendsto_integral_Ioi 0 integrable_stdGaussian.integrableOn tendsto_id
  have e : stdNormalCdf =
      fun u => 1 / 2 + (∫ t in (0 : ℝ)..u, stdGaussian t) / Real.sqrt (2 * π) :=
    funext stdNormalCdf_eq_half_add
  have hval : 1 / 2 + (∫ t in Ioi (0 : ℝ), stdGaussian t) / Real.sqrt (2 * π) = 1 := by
    have h2 : (∫ t in Iic (0 : ℝ), stdGaussian t) + ∫ t in Ioi (0 : ℝ), stdGaussian t
        = Real.sqrt (2 * π) := by
      rw [← integral_stdGaussian]
      exact intervalIntegral.integral_Iic_add_Ioi
        integrable_stdGaussian.integrableOn integrable_stdGaussian.integrableOn
    have h3 : (∫ t in Iic (0 : ℝ), stdGaussian t) / Real.sqrt (2 * π) = 1 / 2 :=
      stdNormalCdf_zero
    have hY : (∫ t in Iic (0 : ℝ), stdGaussian t) = 1 / 2 * Real.sqrt (2 * π) :=
      (div_eq_iff sqrt_two_pi_pos.ne.symm).mp h3
    have hX : (∫ t in Ioi (0 : ℝ), stdGaussian t) = 1 / 2 * Real.sqrt (2 * π) := by
      linarith
    rw [hX, mul_div_assoc, div_self sqrt_two_pi_pos.ne.symm]
    norm_num
  rw [e]
  have htend := ((h0.div_const (Real.sqrt (2 * π))).const_add (1 / 2 : ℝ))
  rwa [hval] at htend

theorem tendsto_stdNormalCdf_atBot : Tendsto stdNormalCdf atBot (nhds 0) := by
  have h0 : Tendsto (fun x : ℝ => ∫ t in x..(0 : ℝ), stdGaussian t) atBot
      (nhds (∫ t in Iic (0 : ℝ), stdGaussian t)) :=
    intervalIntegral_tendsto_integral_Iic 0 integrable_stdGaussian.integrableOn tendsto_id
  have e : stdNormalCdf =
      fun u => 1 / 2 - (∫ t in u..(0 : ℝ), stdGaussian t) / Real.sqrt (2 * π) := by
    funext u
    rw [stdNormalCdf_eq_half_add u, intervalIntegral.integral_symm]
    ring
  have hval : 1 / 2 - (∫ t in Iic (0 : ℝ), stdGaussian t) / Real.sqrt (2 * π) = 0 := by
    have h3 : (∫ t in Iic (0 : ℝ), stdGaussian t) / Real.sqrt (2 * π) = 1 / 2 :=
      stdNormalCdf_zero
    rw [h3]
    norm_num
  rw [e]
  have htend := ((h0.div_const (Real.sqrt (2 * π))).const_sub (1 / 2 : ℝ))
  rwa [hval] at htend

/-- The single error kind of the pricing operation. -/
inductive PriceError where
  | InvalidInput
deriving DecidableEq

/-- Modelled from the spec: the validated pricing operation. The spec's
error contract (fail with `InvalidInput` when `K ≤ 0`, `S ≤ 0`, `T < 0`
or `σ < 0`, succeed otherwise) is realised by the external library's
input checks, which are absent from the repository sources. -/
noncomputable def price (ty : OptionType) (S K r q σ T : ℝ) :
    Except PriceError ℝ :=
  if K ≤ 0 ∨ S ≤ 0 ∨ T < 0 ∨ σ < 0 then .error .InvalidInput
  else .ok (bsPrice ty S K r q σ T)

/-! ## The example programs

Both source files assemble the same concrete option and market data in
their `EquityOption` routine and price it through the analytic engine.
The input assembly is embedded below, one definition per file. -/

/-- The `OptionInputs` struct declared identically in both files. -/
structure OptionInputs where
  type : OptionType
  underlying : ℝ
  strike : ℝ
  dividendYield : ℝ
  riskFreeRate : ℝ
  volatility : ℝ
  maturity : Date
  dayCounter : DayCounter

/-- Inputs assembled by `EquityOption` in `QuantLibTest3/QuantLibTest3.cpp`
(lines 156-163). -/
noncomputable def equityOptionInputsTest3 : OptionInputs :=
  { type := .Put
    underlying := 36
    strike := 40
    dividendYield := 0.00
    riskFreeRate := 0.06
    volatility := 0.20
    maturity := { day := 17, month := 5, year := 1999 }
    dayCounter := .Actual365Fixed }

/-- `todaysDate` in `QuantLibTest3/QuantLibTest3.cpp` (line 148). -/
def todaysDateTest3 : Date := { day := 15, month := 5, year := 1998 }

/-- `settlementDate` in `QuantLibTest3/QuantLibTest3.cpp` (line 149). -/
def settlementDateTest3 : Date := { day := 17, month := 5, year := 1998 }

/-- Inputs assembled by `EquityOption` in `src/unnamed/part_000`
(lines 129-136). -/
noncomputable def equityOptionInputsPart000 : OptionInputs :=
  { type := .Put
    underlying := 36
    strike := 40
    dividendYield := 0.00
    riskFreeRate := 0.06
    volatility := 0.20
    maturity := { day := 17, month := 5, year := 1999 }
    dayCounter := .Actual365Fixed }

/-- `todaysDate` in `src/unnamed/part_000` (line 120). -/
def todaysDatePart000 : Date := { day := 15, month := 5, year := 1998 }

/-- `settlementDate` in `src/unnamed/part_000` (line 121). -/
def settlementDatePart000 : Date := { day := 17, month := 5, year := 1998 }

/-- Net present value produced from an input assembly: the analytic price
with time to maturity measured by the day counter from the settlement date
(the flat curves' reference date) to the maturity date. -/
noncomputable def npvOfInputs (inp : OptionInputs) (settlement : Date) : ℝ :=
  bsPrice inp.type inp.underlying inp.strike inp.riskFreeRate inp.dividendYield
    inp.volatility (inp.dayCounter.yearFraction settlement inp.maturity)

/-- NPV printed by `QuantLibTest3/QuantLibTest3.cpp`. -/
noncomputable def npvTest3 : ℝ := npvOfInputs equityOptionInputsTest3 settlementDateTest3

/-- NPV printed by `src/unnamed/part_000`. -/
noncomputable def npvPart000 : ℝ := npvOfInputs equityOptionInputsPart000 settlementDatePart000

/-- The process-wide mutable settings (`Settings::instance()`), reduced to
the evaluation date (stored as a serial day number). -/
structure GlobalSettings where
  evaluationDate : ℕ
deriving DecidableEq

/-- The `EquityOption` routine of `QuantLibTest3/QuantLibTest3.cpp` as a
state transformer on the process-wide settings: it assigns
`Settings::instance().evaluationDate() = todaysDate` (line 150) before
pricing, and the computed NPV itself depends only on the assembled
inputs. -/
noncomputable def equityOptionRunTest3 (_s : GlobalSettings) : GlobalSettings × ℝ :=
  ({ evaluationDate := todaysDateTest3.serial }, npvTest3)

/-- A C++ exception reaching the `try` block of `main`: either a
`std::exception` carrying a message, or anything else. -/
inductive CppException where
  | stdExc (msg : String)
  | other

/-- The exit-code and handler-output behaviour of `main` (identical in both
files): the body either completes or throws; `main` returns 0 on
completion, and on an exception prints the message (for `std::exception`)
or `"unknown error"` (for anything else) and returns 1. -/
def mainRun (body : Except CppException Unit) : ℕ × List String :=
  match body with
  | .ok _ => (0, [])
  | .error (.stdExc m) => (1, [m])
  | .error .other => (1, ["unknown error"])

/-! ## Branch lemmas for the pricing function -/

theorem bsPrice_call_T_zero (S K r q σ : ℝ) :
    bsPrice .Call S K r q σ 0 = max (S - K) 0 := by
  simp [bsPrice]

theorem bsPrice_put_T_zero (S K r q σ : ℝ) :
    bsPrice .Put S K r q σ 0 = max (K - S) 0 := by
  simp [bsPrice]

theorem bsPrice_call_vol_zero (S K r q T : ℝ) (hT : T ≠ 0) :
    bsPrice .Call S K r q 0 T =
      Real.exp (-(r * T)) * max (S * Real.exp ((r - q) * T) - K) 0 := by
  simp [bsPrice, hT]

theorem bsPrice_put_vol_zero (S K r q T : ℝ) (hT : T ≠ 0) :
    bsPrice .Put S K r q 0 T =
      Real.exp (-(r * T)) * max (K - S * Real.exp ((r - q) * T)) 0 := by
  simp [bsPrice, hT]

theorem bsPrice_call_formula (S K r q σ T : ℝ) (hT : T ≠ 0) (hσ : σ ≠ 0) :
    bsPrice .Call S K r q σ T =
      S * Real.exp (-(q * T)) * stdNormalCdf (d1 S K r q σ T) -
        K * Real.exp (-(r * T)) * stdNormalCdf (d2 S K r q σ T) := by
  simp [bsPrice, hT, hσ]

theorem bsPrice_put_formula (S K r q σ T : ℝ) (hT : T ≠ 0) (hσ : σ ≠ 0) :
    bsPrice .Put S K r q σ T =
      K * Real.exp (-(r * T)) * stdNormalCdf (-d2 S K r q σ T) -
        S * Real.exp (-(q * T)) * stdNormalCdf (-d1 S K r q σ T) := by
  simp [bsPrice, hT, hσ]

/-- Put-call parity of the modelled price; it holds on every branch of the
definition, with no positivity assumptions needed. -/
theorem bsPrice_parity (S K r q σ T : ℝ) :
    bsPrice .Put S K r q σ T + S * Real.exp (-(q * T)) =
      bsPrice .Call S K r q σ T + K * Real.exp (-(r * T)) := by
  by_cases hT : T = 0
  · subst hT
    rw [bsPrice_put_T_zero, bsPrice_call_T_zero]
    simp only [mul_zero, neg_zero, Real.exp_zero, mul_one]
    rcases le_total S K with h | h
    · rw [max_eq_left (by linarith), max_eq_right (by linarith)]
      ring
    · rw [max_eq_right (by linarith), max_eq_left (by linarith)]
      ring
  · by_cases hσ : σ = 0
    · subst hσ
      rw [bsPrice_put_vol_zero S K r q T hT, bsPrice_call_vol_zero S K r q T hT]
      have hE : Real.exp (-(r * T)) * (S * Real.exp ((r - q) * T)) =
          S * Real.exp (-(q * T)) := by
        rw [mul_comm (Real.exp (-(r * T))), mul_assoc, ← Real.exp_add]
        congr 2
        ring
      rcases le_total (S * Real.exp ((r - q) * T)) K with h | h
      · rw [max_eq_left (by linarith), max_eq_right (by linarith), mul_sub, hE]
        ring
      · rw [max_eq_right (by linarith), max_eq_left (by linarith), mul_sub, hE]
        ring
    · rw [bsPrice_put_formula S K r q σ T hT hσ, bsPrice_call_formula S K r q σ T hT hσ,
        stdNormalCdf_neg, stdNormalCdf_neg]
      ring

/-! ## Numeric bounds

Rational interval bounds on `exp`, `log 0.9`, `√(2π)` and the normal cdf,
used to pin down the example's net present value. -/

theorem exp_taylor_six_bound (x : ℝ) (hx : |x| ≤ 1) :
    |Real.exp x - (1 + x + x ^ 2 / 2 + x ^ 3 / 6 + x ^ 4 / 24 + x ^ 5 / 120)| ≤
      |x| ^ 6 * (7 / 4320) := by
  have h := @Real.exp_bound x hx 6 (by norm_num)
  have hsum : ∑ m ∈ Finset.range 6, x ^ m / (Nat.factorial m : ℝ) =
      1 + x + x ^ 2 / 2 + x ^ 3 / 6 + x ^ 4 / 24 + x ^ 5 / 120 := by
    simp [Finset.sum_range_succ, Nat.factorial]
  rw [hsum] at h
  have hc : ((Nat.succ 6 : ℕ) : ℝ) / ((Nat.factorial 6 : ℕ) : ℝ) / 6 = 7 / 4320 := by
    norm_num [Nat.factorial]
  calc |Real.exp x - (1 + x + x ^ 2 / 2 + x ^ 3 / 6 + x ^ 4 / 24 + x ^ 5 / 120)|
      ≤ |x| ^ 6 * ((Nat.succ 6 : ℕ) / ((Nat.factorial 6 : ℕ) * (6 : ℝ))) := h
    _ = |x| ^ 6 * (7 / 4320) := by norm_num [Nat.factorial]

theorem exp_le_taylor_add (x : ℝ) (hx : |x| ≤ 1) :
    Real.exp x ≤ 1 + x + x ^ 2 / 2 + x ^ 3 / 6 + x ^ 4 / 24 + x ^ 5 / 120 +
      |x| ^ 6 * (7 / 4320) := by
  have h := abs_sub_le_iff.mp (exp_taylor_six_bound x hx)
  linarith [h.1]

theorem taylor_sub_le_exp (x : ℝ) (hx : |x| ≤ 1) :
    1 + x + x ^ 2 / 2 + x ^ 3 / 6 + x ^ 4 / 24 + x ^ 5 / 120 -
      |x| ^ 6 * (7 / 4320) ≤ Real.exp x := by
  have h := abs_sub_le_iff.mp (exp_taylor_six_bound x hx)
  linarith [h.2]

theorem exp_quadratic_bound (y : ℝ) (hy : |y| ≤ 1) :
    |Real.exp y - (1 + y + y ^ 2 / 2)| ≤ |y| ^ 3 * (2 / 9) := by
  have h := @Real.exp_bound y hy 3 (by norm_num)
  have hsum : ∑ m ∈ Finset.range 3, y ^ m / (Nat.factorial m : ℝ) =
      1 + y + y ^ 2 / 2 := by
    simp [Finset.sum_range_succ, Nat.factorial]
  rw [hsum] at h
  calc |Real.exp y - (1 + y + y ^ 2 / 2)|
      ≤ |y| ^ 3 * ((Nat.succ 3 : ℕ) / ((Nat.factorial 3 : ℕ) * (3 : ℝ))) := h
    _ = |y| ^ 3 * (2 / 9) := by norm_num [Nat.factorial]

theorem log_nine_tenths_bounds :
    (-0.1053607 : ℝ) ≤ Real.log 0.9 ∧ Real.log 0.9 ≤ -0.1053604 := by
  constructor
  · rw [Real.le_log_iff_exp_le (by norm_num)]
    have h := exp_le_taylor_add (-0.1053607) (by rw [abs_of_nonpos (by norm_num)]; norm_num)
    rw [abs_of_nonpos (by norm_num)] at h
    refine le_trans h ?_
    norm_num
  · rw [Real.log_le_iff_le_exp (by norm_num)]
    have h := taylor_sub_le_exp (-0.1053604) (by rw [abs_of_nonpos (by norm_num)]; norm_num)
    rw [abs_of_nonpos (by norm_num)] at h
    refine le_trans ?_ h
    norm_num

theorem exp_neg_six_hundredths_bounds :
    (0.94176453 : ℝ) ≤ Real.exp (-0.06) ∧ Real.exp (-0.06) ≤ 0.94176454 := by
  constructor
  · have h := taylor_sub_le_exp (-0.06) (by rw [abs_of_nonpos (by norm_num)]; norm_num)
    rw [abs_of_nonpos (by norm_num)] at h
    refine le_trans ?_ h
    norm_num
  · have h := exp_le_taylor_add (-0.06) (by rw [abs_of_nonpos (by norm_num)]; norm_num)
    rw [abs_of_nonpos (by norm_num)] at h
    refine le_trans h ?_
    norm_num

theorem sqrt_two_pi_bounds :
    (2.506628 : ℝ) ≤ Real.sqrt (2 * π) ∧ Real.sqrt (2 * π) ≤ 2.5066285 := by
  constructor
  · rw [Real.le_sqrt (by norm_num) (by positivity)]
    nlinarith [Real.pi_gt_d20]
  · rw [Real.sqrt_le_iff]
    refine ⟨by norm_num, ?_⟩
    nlinarith [Real.pi_lt_d20]

theorem stdGaussian_poly_bounds (t : ℝ) (ht : t ^ 2 ≤ 2) :
    1 - t ^ 2 / 2 + t ^ 4 / 8 - t ^ 6 / 36 ≤ stdGaussian t ∧
      stdGaussian t ≤ 1 - t ^ 2 / 2 + t ^ 4 / 8 + t ^ 6 / 36 := by
  have hsq : (0 : ℝ) ≤ t ^ 2 := sq_nonneg t
  have habs : |(-(t ^ 2) / 2 : ℝ)| = t ^ 2 / 2 := by
    rw [abs_of_nonpos (by linarith)]
    ring
  have hy1 : |(-(t ^ 2) / 2 : ℝ)| ≤ 1 := by
    rw [habs]
    linarith
  have h := exp_quadratic_bound (-(t ^ 2) / 2) hy1
  rw [habs] at h
  have h2 := abs_sub_le_iff.mp h
  have he : stdGaussian t = Real.exp (-(t ^ 2) / 2) := rfl
  have e1 : (1 : ℝ) + -(t ^ 2) / 2 + (-(t ^ 2) / 2) ^ 2 / 2 = 1 - t ^ 2 / 2 + t ^ 4 / 8 := by
    ring
  have e2 : (t ^ 2 / 2) ^ 3 * (2 / 9 : ℝ) = t ^ 6 / 36 := by
    ring
  rw [he]
  constructor
  · linarith [h2.2, e1, e2]
  · linarith [h2.1, e1, e2]

theorem integral_gauss_poly_lower (x : ℝ) :
    ∫ t in (0 : ℝ)..x, (1 - t ^ 2 / 2 + t ^ 4 / 8 - t ^ 6 / 36) =
      x - x ^ 3 / 6 + x ^ 5 / 40 - x ^ 7 / 252 := by
  have hder : ∀ t ∈ uIcc (0 : ℝ) x,
      HasDerivAt (fun u => u - u ^ 3 / 6 + u ^ 5 / 40 - u ^ 7 / 252)
        (1 - t ^ 2 / 2 + t ^ 4 / 8 - t ^ 6 / 36) t := by
    intro t _
    have h := (((hasDerivAt_id t).sub ((hasDerivAt_pow 3 t).div_const 6)).add
      ((hasDerivAt_pow 5 t).div_const 40)).sub ((hasDerivAt_pow 7 t).div_const 252)
    convert h using 1
    norm_num
    ring
  rw [intervalIntegral.integral_eq_sub_of_hasDerivAt hder
    ((by fun_prop : Continuous fun t : ℝ => 1 - t ^ 2 / 2 + t ^ 4 / 8 - t ^ 6 / 36).intervalIntegrable 0 x)]
  norm_num

theorem integral_gauss_poly_upper (x : ℝ) :
    ∫ t in (0 : ℝ)..x, (1 - t ^ 2 / 2 + t ^ 4 / 8 + t ^ 6 / 36) =
      x - x ^ 3 / 6 + x ^ 5 / 40 + x ^ 7 / 252 := by
  have hder : ∀ t ∈ uIcc (0 : ℝ) x,
      HasDerivAt (fun u => u - u ^ 3 / 6 + u ^ 5 / 40 + u ^ 7 / 252)
        (1 - t ^ 2 / 2 + t ^ 4 / 8 + t ^ 6 / 36) t := by
    intro t _
    have h := (((hasDerivAt_id t).sub ((hasDerivAt_pow 3 t).div_const 6)).add
      ((hasDerivAt_pow 5 t).div_const 40)).add ((hasDerivAt_pow 7 t).div_const 252)
    convert h using 1
    norm_num
    ring
  rw [intervalIntegral.integral_eq_sub_of_hasDerivAt hder
    ((by fun_prop : Continuous fun t : ℝ => 1 - t ^ 2 / 2 + t ^ 4 / 8 + t ^ 6 / 36).intervalIntegrable 0 x)]
  norm_num

theorem intervalIntegral_stdGaussian_lower (x : ℝ) (h0 : 0 ≤ x) (h1 : x ≤ 1) :
    x - x ^ 3 / 6 + x ^ 5 / 40 - x ^ 7 / 252 ≤ ∫ t in (0 : ℝ)..x, stdGaussian t := by
  rw [← integral_gauss_poly_lower x]
  refine intervalIntegral.integral_mono_on h0
    ((by fun_prop : Continuous fun t : ℝ => 1 - t ^ 2 / 2 + t ^ 4 / 8 - t ^ 6 / 36).intervalIntegrable 0 x)
    (continuous_stdGaussian.intervalIntegrable 0 x) ?_
  intro t ht
  have ht1 : t ≤ 1 := le_trans ht.2 h1
  exact (stdGaussian_poly_bounds t (by nlinarith [ht.1])).1

theorem intervalIntegral_stdGaussian_upper (x : ℝ) (h0 : 0 ≤ x) (h1 : x ≤ 1) :
    (∫ t in (0 : ℝ)..x, stdGaussian t) ≤ x - x ^ 3 / 6 + x ^ 5 / 40 + x ^ 7 / 252 := by
  rw [← integral_gauss_poly_upper x]
  refine intervalIntegral.integral_mono_on h0
    (continuous_stdGaussian.intervalIntegrable 0 x)
    ((by fun_prop : Continuous fun t : ℝ => 1 - t ^ 2 / 2 + t ^ 4 / 8 + t ^ 6 / 36).intervalIntegrable 0 x) ?_
  intro t ht
  have ht1 : t ≤ 1 := le_trans ht.2 h1
  exact (stdGaussian_poly_bounds t (by nlinarith [ht.1])).2

theorem stdNormalCdf_ge_poly (x : ℝ) (h0 : 0 ≤ x) (h1 : x ≤ 1) :
    1 / 2 + (x - x ^ 3 / 6 + x ^ 5 / 40 - x ^ 7 / 252) / 2.5066285 ≤ stdNormalCdf x := by
  rw [stdNormalCdf_eq_half_add]
  have hI0 : (0 : ℝ) ≤ ∫ t in (0 : ℝ)..x, stdGaussian t :=
    intervalIntegral.integral_nonneg h0 fun u _ => (stdGaussian_pos u).le
  have hIlb := intervalIntegral_stdGaussian_lower x h0 h1
  have hq := div_le_div hI0 hIlb sqrt_two_pi_pos sqrt_two_pi_bounds.2
  linarith

theorem stdNormalCdf_le_poly (x : ℝ) (h0 : 0 ≤ x) (h1 : x ≤ 1) :
    stdNormalCdf x ≤ 1 / 2 + (x - x ^ 3 / 6 + x ^ 5 / 40 + x ^ 7 / 252) / 2.506628 := by
  rw [stdNormalCdf_eq_half_add]
  have hI0 : (0 : ℝ) ≤ ∫ t in (0 : ℝ)..x, stdGaussian t :=
    intervalIntegral.integral_nonneg h0 fun u _ => (stdGaussian_pos u).le
  have hIub := intervalIntegral_stdGaussian_upper x h0 h1
  have hub0 : (0 : ℝ) ≤ x - x ^ 3 / 6 + x ^ 5 / 40 + x ^ 7 / 252 := le_trans hI0 hIub
  have hq := div_le_div hub0 hIub (by norm_num : (0 : ℝ) < 2.506628) sqrt_two_pi_bounds.1
  linarith

/-! ## Monotonicity in volatility

The derivative of the call price in `σ` is
`S·e^(−qT)·φ(d1)·√T / √(2π) ≥ 0`, by the classical identity
`S·e^(−qT)·φ(d1) = K·e^(−rT)·φ(d2)`. -/

theorem gauss_identity (S K r q σ T : ℝ)
    (hS : 0 < S) (hK : 0 < K) (hT : 0 < T) (hσ : σ ≠ 0) :
    S * Real.exp (-(q * T)) * stdGaussian (d1 S K r q σ T) =
      K * Real.exp (-(r * T)) * stdGaussian (d2 S K r q σ T) := by
  have hsT : 0 < Real.sqrt T := Real.sqrt_pos.mpr hT
  have hs : σ * Real.sqrt T ≠ 0 := mul_ne_zero hσ hsT.ne.symm
  have hsq : Real.sqrt T ^ 2 = T := Real.sq_sqrt hT.le
  have hd1 : d1 S K r q σ T * (σ * Real.sqrt T) =
      Real.log (S / K) + (r - q + σ ^ 2 / 2) * T := by
    unfold d1
    field_simp
    ring
  have hdd : d1 S K r q σ T ^ 2 - d2 S K r q σ T ^ 2 =
      2 * (Real.log (S / K) + (r - q) * T) := by
    unfold d2
    have expand : d1 S K r q σ T ^ 2 - (d1 S K r q σ T - σ * Real.sqrt T) ^ 2 =
        2 * (d1 S K r q σ T * (σ * Real.sqrt T)) - σ ^ 2 * Real.sqrt T ^ 2 := by
      ring
    rw [expand, hd1, hsq]
    ring
  have hA : S * Real.exp (-(q * T)) = Real.exp (Real.log S + -(q * T)) := by
    rw [Real.exp_add, Real.exp_log hS]
  have hB : K * Real.exp (-(r * T)) = Real.exp (Real.log K + -(r * T)) := by
    rw [Real.exp_add, Real.exp_log hK]
  unfold stdGaussian
  rw [hA, hB, ← Real.exp_add, ← Real.exp_add]
  congr 1
  rw [Real.log_div hS.ne.symm hK.ne.symm] at hdd
  linarith [hdd]

theorem hasDerivAt_d1_sigma (S K r q T : ℝ) (hT : 0 < T) (σ : ℝ) (hσ : σ ≠ 0) :
    HasDerivAt (fun u => d1 S K r q u T)
      ((σ * T * (σ * Real.sqrt T) -
          (Real.log (S / K) + (r - q + σ ^ 2 / 2) * T) * Real.sqrt T) /
        (σ * Real.sqrt T) ^ 2) σ := by
  unfold d1
  have hnum : HasDerivAt (fun u : ℝ => Real.log (S / K) + (r - q + u ^ 2 / 2) * T)
      (σ * T) σ := by
    have h1 : HasDerivAt (fun u : ℝ => u ^ 2) (2 * σ) σ := by
      simpa using hasDerivAt_pow 2 σ
    have h3 := (((h1.div_const 2).const_add (r - q)).mul_const T).const_add
      (Real.log (S / K))
    convert h3 using 1
    ring
  have hden : HasDerivAt (fun u : ℝ => u * Real.sqrt T) (Real.sqrt T) σ := by
    simpa using (hasDerivAt_id σ).mul_const (Real.sqrt T)
  exact hnum.div hden (mul_ne_zero hσ (Real.sqrt_pos.mpr hT).ne.symm)

theorem hasDerivAt_callPrice_sigma (S K r q T : ℝ)
    (hS : 0 < S) (hK : 0 < K) (hT : 0 < T) (σ : ℝ) (hσ : σ ≠ 0) :
    HasDerivAt (fun u => S * Real.exp (-(q * T)) * stdNormalCdf (d1 S K r q u T) -
        K * Real.exp (-(r * T)) * stdNormalCdf (d2 S K r q u T))
      (S * Real.exp (-(q * T)) * stdGaussian (d1 S K r q σ T) * Real.sqrt T /
        Real.sqrt (2 * π)) σ := by
  obtain ⟨D, hd1⟩ : ∃ D, HasDerivAt (fun u => d1 S K r q u T) D σ :=
    ⟨_, hasDerivAt_d1_sigma S K r q T hT σ hσ⟩
  have hd2 : HasDerivAt (fun u => d2 S K r q u T) (D - Real.sqrt T) σ := by
    unfold d2
    exact hd1.sub (by simpa using (hasDerivAt_id σ).mul_const (Real.sqrt T))
  have hf1 : HasDerivAt (fun u => stdNormalCdf (d1 S K r q u T))
      (stdGaussian (d1 S K r q σ T) / Real.sqrt (2 * π) * D) σ := by
    have h := (hasDerivAt_stdNormalCdf (d1 S K r q σ T)).comp σ hd1
    simpa [Function.comp] using h
  have hf2 : HasDerivAt (fun u => stdNormalCdf (d2 S K r q u T))
      (stdGaussian (d2 S K r q σ T) / Real.sqrt (2 * π) * (D - Real.sqrt T)) σ := by
    have h := (hasDerivAt_stdNormalCdf (d2 S K r q σ T)).comp σ hd2
    simpa [Function.comp] using h
  have hg := (hf1.const_mul (S * Real.exp (-(q * T)))).sub
    (hf2.const_mul (K * Real.exp (-(r * T))))
  have hid := gauss_identity S K r q σ T hS hK hT hσ
  convert hg using 1
  linear_combination ((Real.sqrt T - D) / Real.sqrt (2 * π)) * hid

theorem callPrice_monotoneOn (S K r q T : ℝ) (hS : 0 < S) (hK : 0 < K) (hT : 0 < T) :
    MonotoneOn (fun σ => bsPrice .Call S K r q σ T) (Ioi (0 : ℝ)) := by
  have hg : MonotoneOn (fun σ =>
      S * Real.exp (-(q * T)) * stdNormalCdf (d1 S K r q σ T) -
        K * Real.exp (-(r * T)) * stdNormalCdf (d2 S K r q σ T)) (Ioi (0 : ℝ)) := by
    apply monotoneOn_of_deriv_nonneg (convex_Ioi 0)
    · intro x hx
      exact (hasDerivAt_callPrice_sigma S K r q T hS hK hT x
        (ne_of_gt hx)).continuousAt.continuousWithinAt
    · intro x hx
      rw [interior_Ioi] at hx
      exact (hasDerivAt_callPrice_sigma S K r q T hS hK hT x
        (ne_of_gt hx)).differentiableAt.differentiableWithinAt
    · intro x hx
      rw [interior_Ioi] at hx
      rw [(hasDerivAt_callPrice_sigma S K r q T hS hK hT x (ne_of_gt hx)).deriv]
      exact div_nonneg
        (mul_nonneg (mul_nonneg (mul_nonneg hS.le (Real.exp_pos _).le)
          (stdGaussian_pos _).le) (Real.sqrt_nonneg T))
        (Real.sqrt_nonneg _)
  intro a ha b hb hab
  have ha' : a ≠ 0 := ne_of_gt ha
  have hb' : b ≠ 0 := ne_of_gt hb
  simp only
  rw [bsPrice_call_formula S K r q a T hT.ne.symm ha',
    bsPrice_call_formula S K r q b T hT.ne.symm hb']
  exact hg ha hb hab

theorem d1_sigma_form (S K r q T : ℝ) (hT : 0 < T) (σ : ℝ) (hσ : σ ≠ 0) :
    d1 S K r q σ T = (Real.log (S / K) + (r - q) * T) / (σ * Real.sqrt T) +
      σ * Real.sqrt T / 2 := by
  have hsT : 0 < Real.sqrt T := Real.sqrt_pos.mpr hT
  have hsq : Real.sqrt T * Real.sqrt T = T := Real.mul_self_sqrt hT.le
  have hne : σ * Real.sqrt T ≠ 0 := mul_ne_zero hσ hsT.ne.symm
  have h1 : d1 S K r q σ T * (σ * Real.sqrt T) =
      Real.log (S / K) + (r - q + σ ^ 2 / 2) * T := by
    unfold d1
    field_simp
    ring
  have h2 : ((Real.log (S / K) + (r - q) * T) / (σ * Real.sqrt T) +
      σ * Real.sqrt T / 2) * (σ * Real.sqrt T) =
      Real.log (S / K) + (r - q + σ ^ 2 / 2) * T := by
    field_simp
    linear_combination 2 * σ ^ 3 * Real.sqrt T * hsq
  exact mul_right_cancel₀ hne (h1.trans h2.symm)

theorem d2_sigma_form (S K r q T : ℝ) (hT : 0 < T) (σ : ℝ) (hσ : σ ≠ 0) :
    d2 S K r q σ T = (Real.log (S / K) + (r - q) * T) / (σ * Real.sqrt T) -
      σ * Real.sqrt T / 2 := by
  unfold d2
  rw [d1_sigma_form S K r q T hT σ hσ]
  ring

theorem tendsto_hyperbola_linear_atTop (c M b : ℝ) (hc : 0 < c) (hM : 0 < M) :
    Tendsto (fun σ : ℝ => M / (σ * c) + σ * b) (nhdsWithin 0 (Ioi 0)) atTop := by
  have h1 : Tendsto (fun σ : ℝ => M / (σ * c)) (nhdsWithin 0 (Ioi 0)) atTop := by
    have he : (fun σ : ℝ => M / (σ * c)) = fun σ : ℝ => (M / c) * σ⁻¹ := by
      funext σ
      ring
    rw [he]
    exact tendsto_inv_zero_atTop.const_mul_atTop (div_pos hM hc)
  refine tendsto_atTop_add_right_of_le' _ (-|b|) h1 ?_
  filter_upwards [Ioo_mem_nhdsWithin_Ioi' zero_lt_one] with σ hσ
  have h2 : σ * -|b| ≤ σ * b :=
    mul_le_mul_of_nonneg_left (neg_abs_le b) hσ.1.le
  have h3 : (0 : ℝ) ≤ (1 - σ) * |b| :=
    mul_nonneg (by linarith [hσ.2]) (abs_nonneg b)
  nlinarith

theorem tendsto_hyperbola_linear_atBot (c M b : ℝ) (hc : 0 < c) (hM : M < 0) :
    Tendsto (fun σ : ℝ => M / (σ * c) + σ * b) (nhdsWithin 0 (Ioi 0)) atBot := by
  have h1 : Tendsto (fun σ : ℝ => M / (σ * c)) (nhdsWithin 0 (Ioi 0)) atBot := by
    have he : (fun σ : ℝ => M / (σ * c)) = fun σ : ℝ => (M / c) * σ⁻¹ := by
      funext σ
      ring
    rw [he]
    exact tendsto_inv_zero_atTop.const_mul_atTop_of_neg (div_neg_of_neg_of_pos hM hc)
  refine tendsto_atBot_add_right_of_ge' _ |b| h1 ?_
  filter_upwards [Ioo_mem_nhdsWithin_Ioi' zero_lt_one] with σ hσ
  have h2 : σ * b ≤ σ * |b| :=
    mul_le_mul_of_nonneg_left (le_abs_self b) hσ.1.le
  have h3 : (0 : ℝ) ≤ (1 - σ) * |b| :=
    mul_nonneg (by linarith [hσ.2]) (abs_nonneg b)
  nlinarith

theorem callPrice_tendsto_zero_vol (S K r q T : ℝ)
    (hS : 0 < S) (hK : 0 < K) (hT : 0 < T) :
    Tendsto (fun σ => bsPrice .Call S K r q σ T) (nhdsWithin 0 (Ioi 0))
      (nhds (max (S * Real.exp (-(q * T)) - K * Real.exp (-(r * T))) 0)) := by
  have hsT : 0 < Real.sqrt T := Real.sqrt_pos.mpr hT
  have hAB : S * Real.exp (-(q * T)) = K * Real.exp (-(r * T)) *
      Real.exp (Real.log (S / K) + (r - q) * T) := by
    rw [mul_assoc, ← Real.exp_add]
    have harg : -(r * T) + (Real.log (S / K) + (r - q) * T) =
        Real.log (S / K) + -(q * T) := by
      ring
    rw [harg, Real.exp_add, Real.exp_log (div_pos hS hK)]
    field_simp
  have hB : 0 < K * Real.exp (-(r * T)) := mul_pos hK (Real.exp_pos _)
  have hbody : ∀ L : ℝ,
      Tendsto (fun σ => S * Real.exp (-(q * T)) * stdNormalCdf (d1 S K r q σ T) -
        K * Real.exp (-(r * T)) * stdNormalCdf (d2 S K r q σ T))
        (nhdsWithin 0 (Ioi 0)) (nhds L) →
      Tendsto (fun σ => bsPrice .Call S K r q σ T) (nhdsWithin 0 (Ioi 0)) (nhds L) := by
    intro L h
    refine h.congr' ?_
    filter_upwards [self_mem_nhdsWithin] with σ hσ
    rw [bsPrice_call_formula S K r q σ T hT.ne.symm (ne_of_gt hσ)]
  have hev1 : ∀ b : ℝ,
      (fun σ : ℝ => (Real.log (S / K) + (r - q) * T) / (σ * Real.sqrt T) + σ * b)
        =ᶠ[nhdsWithin (0 : ℝ) (Ioi 0)]
      fun σ => (Real.log (S / K) + (r - q) * T) / (σ * Real.sqrt T) + σ * b :=
    fun b => EventuallyEq.refl _ _
  rcases lt_trichotomy (Real.log (S / K) + (r - q) * T) 0 with hM | hM | hM
  · -- forward below strike: both d1, d2 → −∞, price → 0
    have hd1 : Tendsto (fun σ => d1 S K r q σ T) (nhdsWithin 0 (Ioi 0)) atBot := by
      refine (tendsto_hyperbola_linear_atBot (Real.sqrt T) _ (Real.sqrt T / 2) hsT hM).congr' ?_
      filter_upwards [self_mem_nhdsWithin] with σ hσ
      rw [d1_sigma_form S K r q T hT σ (ne_of_gt hσ)]
      ring
    have hd2 : Tendsto (fun σ => d2 S K r q σ T) (nhdsWithin 0 (Ioi 0)) atBot := by
      refine (tendsto_hyperbola_linear_atBot (Real.sqrt T) _ (-(Real.sqrt T / 2)) hsT hM).congr' ?_
      filter_upwards [self_mem_nhdsWithin] with σ hσ
      rw [d2_sigma_form S K r q T hT σ (ne_of_gt hσ)]
      ring
    have hP1 := tendsto_stdNormalCdf_atBot.comp hd1
    have hP2 := tendsto_stdNormalCdf_atBot.comp hd2
    have hlim := ((hP1.const_mul (S * Real.exp (-(q * T)))).sub
      (hP2.const_mul (K * Real.exp (-(r * T)))))
    have hmax : max (S * Real.exp (-(q * T)) - K * Real.exp (-(r * T))) 0 = 0 := by
      refine max_eq_right ?_
      have hlt : Real.exp (Real.log (S / K) + (r - q) * T) < 1 := by
        rw [← Real.exp_zero]
        exact Real.exp_lt_exp.mpr hM
      nlinarith
    rw [hmax]
    refine hbody 0 ?_
    have hlim2 : Tendsto (fun σ =>
        S * Real.exp (-(q * T)) * stdNormalCdf (d1 S K r q σ T) -
          K * Real.exp (-(r * T)) * stdNormalCdf (d2 S K r q σ T))
        (nhdsWithin 0 (Ioi 0))
        (nhds (S * Real.exp (-(q * T)) * 0 - K * Real.exp (-(r * T)) * 0)) := by
      simpa [Function.comp] using hlim
    have hval : S * Real.exp (-(q * T)) * 0 - K * Real.exp (-(r * T)) * 0 = 0 := by ring
    rwa [hval] at hlim2
  · -- at the money forward: price → 0
    have hd1 : Tendsto (fun σ => d1 S K r q σ T) (nhdsWithin 0 (Ioi 0)) (nhds 0) := by
      have hc : Tendsto (fun σ : ℝ => σ * (Real.sqrt T / 2)) (nhdsWithin 0 (Ioi 0)) (nhds 0) := by
        have hcont : Continuous fun σ : ℝ => σ * (Real.sqrt T / 2) := by fun_prop
        have h00 : Tendsto (fun σ : ℝ => σ * (Real.sqrt T / 2)) (nhds 0) (nhds 0) := by
          have h01 := hcont.tendsto 0
          simpa using h01
        exact h00.mono_left nhdsWithin_le_nhds
      refine hc.congr' ?_
      filter_upwards [self_mem_nhdsWithin] with σ hσ
      rw [d1_sigma_form S K r q T hT σ (ne_of_gt hσ), hM]
      rw [zero_div, zero_add]
      ring
    have hd2 : Tendsto (fun σ => d2 S K r q σ T) (nhdsWithin 0 (Ioi 0)) (nhds 0) := by
      have hc : Tendsto (fun σ : ℝ => σ * (-(Real.sqrt T) / 2)) (nhdsWithin 0 (Ioi 0)) (nhds 0) := by
        have hcont : Continuous fun σ : ℝ => σ * (-(Real.sqrt T) / 2) := by fun_prop
        have h00 : Tendsto (fun σ : ℝ => σ * (-(Real.sqrt T) / 2)) (nhds 0) (nhds 0) := by
          have h01 := hcont.tendsto 0
          simpa using h01
        exact h00.mono_left nhdsWithin_le_nhds
      refine hc.congr' ?_
      filter_upwards [self_mem_nhdsWithin] with σ hσ
      rw [d2_sigma_form S K r q T hT σ (ne_of_gt hσ), hM]
      rw [zero_div, zero_sub]
      ring
    have hP1 := (continuous_stdNormalCdf.tendsto (0 : ℝ)).comp hd1
    have hP2 := (continuous_stdNormalCdf.tendsto (0 : ℝ)).comp hd2
    have hlim := ((hP1.const_mul (S * Real.exp (-(q * T)))).sub
      (hP2.const_mul (K * Real.exp (-(r * T)))))
    have hAeqB : S * Real.exp (-(q * T)) = K * Real.exp (-(r * T)) := by
      rw [hAB, hM, Real.exp_zero, mul_one]
    have hmax : max (S * Real.exp (-(q * T)) - K * Real.exp (-(r * T))) 0 = 0 := by
      rw [hAeqB]
      simp
    rw [hmax]
    refine hbody 0 ?_
    have hlim2 : Tendsto (fun σ =>
        S * Real.exp (-(q * T)) * stdNormalCdf (d1 S K r q σ T) -
          K * Real.exp (-(r * T)) * stdNormalCdf (d2 S K r q σ T))
        (nhdsWithin 0 (Ioi 0))
        (nhds (S * Real.exp (-(q * T)) * stdNormalCdf 0 -
          K * Real.exp (-(r * T)) * stdNormalCdf 0)) := by
      simpa [Function.comp] using hlim
    have hzero : S * Real.exp (-(q * T)) * stdNormalCdf 0 -
        K * Real.exp (-(r * T)) * stdNormalCdf 0 = 0 := by
      rw [hAeqB]
      ring
    rwa [hzero] at hlim2
  · -- forward above strike: both d1, d2 → +∞, price → A − B
    have hd1 : Tendsto (fun σ => d1 S K r q σ T) (nhdsWithin 0 (Ioi 0)) atTop := by
      refine (tendsto_hyperbola_linear_atTop (Real.sqrt T) _ (Real.sqrt T / 2) hsT hM).congr' ?_
      filter_upwards [self_mem_nhdsWithin] with σ hσ
      rw [d1_sigma_form S K r q T hT σ (ne_of_gt hσ)]
      ring
    have hd2 : Tendsto (fun σ => d2 S K r q σ T) (nhdsWithin 0 (Ioi 0)) atTop := by
      refine (tendsto_hyperbola_linear_atTop (Real.sqrt T) _ (-(Real.sqrt T / 2)) hsT hM).congr' ?_
      filter_upwards [self_mem_nhdsWithin] with σ hσ
      rw [d2_sigma_form S K r q T hT σ (ne_of_gt hσ)]
      ring
    have hP1 := tendsto_stdNormalCdf_atTop.comp hd1
    have hP2 := tendsto_stdNormalCdf_atTop.comp hd2
    have hlim := ((hP1.const_mul (S * Real.exp (-(q * T)))).sub
      (hP2.const_mul (K * Real.exp (-(r * T)))))
    have hmax : max (S * Real.exp (-(q * T)) - K * Real.exp (-(r * T))) 0 =
        S * Real.exp (-(q * T)) - K * Real.exp (-(r * T)) := by
      refine max_eq_left ?_
      have hge : (1 : ℝ) ≤ Real.exp (Real.log (S / K) + (r - q) * T) := by
        rw [← Real.exp_zero]
        exact Real.exp_le_exp.mpr hM.le
      nlinarith
    rw [hmax]
    refine hbody _ ?_
    have hlim2 : Tendsto (fun σ =>
        S * Real.exp (-(q * T)) * stdNormalCdf (d1 S K r q σ T) -
          K * Real.exp (-(r * T)) * stdNormalCdf (d2 S K r q σ T))
        (nhdsWithin 0 (Ioi 0))
        (nhds (S * Real.exp (-(q * T)) * 1 - K * Real.exp (-(r * T)) * 1)) := by
      simpa [Function.comp] using hlim
    have hval : S * Real.exp (-(q * T)) * 1 - K * Real.exp (-(r * T)) * 1 =
        S * Real.exp (-(q * T)) - K * Real.exp (-(r * T)) := by ring
    rwa [hval] at hlim2

/-- The `σ = 0` price is below the price at any positive volatility. -/
theorem callPrice_zero_vol_le (S K r q T σ2 : ℝ)
    (hS : 0 < S) (hK : 0 < K) (hT : 0 < T) (h2 : 0 < σ2) :
    bsPrice .Call S K r q 0 T ≤ bsPrice .Call S K r q σ2 T := by
  have h0 : bsPrice .Call S K r q 0 T =
      max (S * Real.exp (-(q * T)) - K * Real.exp (-(r * T))) 0 := by
    rw [bsPrice_call_vol_zero S K r q T hT.ne.symm]
    have hmm : Real.exp (-(r * T)) * max (S * Real.exp ((r - q) * T) - K) 0 =
        max (Real.exp (-(r * T)) * (S * Real.exp ((r - q) * T) - K))
          (Real.exp (-(r * T)) * 0) :=
      mul_max_of_nonneg _ _ (Real.exp_pos _).le
    rw [hmm, mul_zero]
    congr 1
    rw [mul_sub]
    have hE : Real.exp (-(r * T)) * (S * Real.exp ((r - q) * T)) =
        S * Real.exp (-(q * T)) := by
      rw [mul_comm (Real.exp (-(r * T))), mul_assoc, ← Real.exp_add]
      congr 2
      ring
    rw [hE]
    ring
  rw [h0]
  refine le_of_tendsto (callPrice_tendsto_zero_vol S K r q T hS hK hT) ?_
  filter_upwards [Ioc_mem_nhdsWithin_Ioi (left_mem_Ico.mpr h2)] with σ hσ
  exact callPrice_monotoneOn S K r q T hS hK hT hσ.1 h2 hσ.2

/-! ## Claim theorems -/

/-- C1: for every put option with strike `K > 0`, spot `S > 0`,
time-to-maturity `T > 0` and volatility `σ > 0`, the price operation
returns `K·e^(−rT)·Φ(−d2) − S·e^(−qT)·Φ(−d1)`. -/
theorem C1_put_price_formula (S K r q σ T : ℝ)
    (hK : 0 < K) (hS : 0 < S) (hT : 0 < T) (hσ : 0 < σ) :
    price .Put S K r q σ T = .ok
      (K * Real.exp (-(r * T)) * stdNormalCdf (-d2 S K r q σ T) -
        S * Real.exp (-(q * T)) * stdNormalCdf (-d1 S K r q σ T)) := by
  unfold price
  rw [if_neg (by push_neg; exact ⟨hK, hS, hT.le, hσ.le⟩),
    bsPrice_put_formula S K r q σ T hT.ne.symm hσ.ne.symm]

/-- Witness for C1 at `S = 2, K = 1, r = 0, q = 0, σ = 1, T = 1`. -/
theorem C1_witness :
    (0 : ℝ) < 1 ∧ (0 : ℝ) < 2 ∧
      price .Put 2 1 0 0 1 1 = .ok
        (1 * Real.exp (-(0 * 1)) * stdNormalCdf (-d2 2 1 0 0 1 1) -
          2 * Real.exp (-(0 * 1)) * stdNormalCdf (-d1 2 1 0 0 1 1)) :=
  ⟨by norm_num, by norm_num,
    C1_put_price_formula 2 1 0 0 1 1 (by norm_num) (by norm_num) (by norm_num) (by norm_num)⟩

/-- C2: for the example's concrete inputs (put, S = 36, K = 40, r = 0.06,
q = 0.00, σ = 0.20), the Actual/365-fixed year fraction from 17-May-1998
to 17-May-1999 is 365 days / 365 and the computed net present value is
approximately 3.84 — within 0.005, i.e. it rounds to the displayed
reference value 3.84. -/
theorem C2_example_npv :
    DayCounter.yearFraction .Actual365Fixed settlementDateTest3
        equityOptionInputsTest3.maturity = 365 / 365 ∧
      |npvTest3 - 3.84| < 0.005 := by
  have hs1 : settlementDateTest3.serial = 729831 := rfl
  have hs2 : Date.serial { day := 17, month := 5, year := 1999 } = 730196 := rfl
  have hmat : equityOptionInputsTest3.maturity = { day := 17, month := 5, year := 1999 } := rfl
  have hT : DayCounter.yearFraction .Actual365Fixed settlementDateTest3
      { day := 17, month := 5, year := 1999 } = 1 := by
    simp only [DayCounter.yearFraction]
    rw [hs1, hs2]
    norm_num
  refine ⟨by rw [hmat, hT]; norm_num, ?_⟩
  have hnpv : npvTest3 = bsPrice .Put 36 40 0.06 0.00 0.20 1 := by
    unfold npvTest3 npvOfInputs
    simp only [equityOptionInputsTest3]
    rw [hT]
  have h3640 : (36 : ℝ) / 40 = 0.9 := by norm_num
  have hd1 : d1 36 40 0.06 0.00 0.20 1 = 5 * Real.log 0.9 + 0.4 := by
    unfold d1
    rw [Real.sqrt_one, h3640]
    ring
  have hd2 : d2 36 40 0.06 0.00 0.20 1 = 5 * Real.log 0.9 + 0.2 := by
    unfold d2
    rw [hd1, Real.sqrt_one]
    ring
  have hL := log_nine_tenths_bounds
  have hmd1lo : (0.126802 : ℝ) ≤ -d1 36 40 0.06 0.00 0.20 1 := by
    rw [hd1]
    linarith [hL.2]
  have hmd1hi : -d1 36 40 0.06 0.00 0.20 1 ≤ 0.1268035 := by
    rw [hd1]
    linarith [hL.1]
  have hmd2lo : (0.326802 : ℝ) ≤ -d2 36 40 0.06 0.00 0.20 1 := by
    rw [hd2]
    linarith [hL.2]
  have hmd2hi : -d2 36 40 0.06 0.00 0.20 1 ≤ 0.3268035 := by
    rw [hd2]
    linarith [hL.1]
  have hPhi1lo : (0.5504514 : ℝ) ≤ stdNormalCdf (-d1 36 40 0.06 0.00 0.20 1) := by
    have h1 := stdNormalCdf_ge_poly 0.126802 (by norm_num) (by norm_num)
    have h2 := monotone_stdNormalCdf hmd1lo
    have h3 : (0.5504514 : ℝ) ≤ 1 / 2 +
        ((0.126802 : ℝ) - 0.126802 ^ 3 / 6 + 0.126802 ^ 5 / 40 - 0.126802 ^ 7 / 252) /
          2.5066285 := by
      norm_num
    linarith
  have hPhi1hi : stdNormalCdf (-d1 36 40 0.06 0.00 0.20 1) ≤ 0.5504521 := by
    have h1 := stdNormalCdf_le_poly 0.1268035 (by norm_num) (by norm_num)
    have h2 := monotone_stdNormalCdf hmd1hi
    have h3 : 1 / 2 +
        ((0.1268035 : ℝ) - 0.1268035 ^ 3 / 6 + 0.1268035 ^ 5 / 40 + 0.1268035 ^ 7 / 252) /
          2.506628 ≤ 0.5504521 := by
      norm_num
    linarith
  have hPhi2lo : (0.6280909 : ℝ) ≤ stdNormalCdf (-d2 36 40 0.06 0.00 0.20 1) := by
    have h1 := stdNormalCdf_ge_poly 0.326802 (by norm_num) (by norm_num)
    have h2 := monotone_stdNormalCdf hmd2lo
    have h3 : (0.6280909 : ℝ) ≤ 1 / 2 +
        ((0.326802 : ℝ) - 0.326802 ^ 3 / 6 + 0.326802 ^ 5 / 40 - 0.326802 ^ 7 / 252) /
          2.5066285 := by
      norm_num
    linarith
  have hPhi2hi : stdNormalCdf (-d2 36 40 0.06 0.00 0.20 1) ≤ 0.6280929 := by
    have h1 := stdNormalCdf_le_poly 0.3268035 (by norm_num) (by norm_num)
    have h2 := monotone_stdNormalCdf hmd2hi
    have h3 : 1 / 2 +
        ((0.3268035 : ℝ) - 0.3268035 ^ 3 / 6 + 0.3268035 ^ 5 / 40 + 0.3268035 ^ 7 / 252) /
          2.506628 ≤ 0.6280929 := by
      norm_num
    linarith
  have hE := exp_neg_six_hundredths_bounds
  rw [hnpv, bsPrice_put_formula 36 40 0.06 0.00 0.20 1 one_ne_zero (by norm_num)]
  have e1 : (-(0.06 * 1) : ℝ) = -0.06 := by norm_num
  have e2 : (-(0.00 * 1) : ℝ) = 0 := by norm_num
  rw [e1, e2, Real.exp_zero]
  rw [abs_lt]
  constructor
  · nlinarith [hE.1, hPhi2lo, hPhi1hi,
      mul_nonneg (sub_nonneg.mpr hE.1) (sub_nonneg.mpr hPhi2lo)]
  · nlinarith [hE.2, hPhi2hi, hPhi1lo,
      mul_nonneg (sub_nonneg.mpr hE.2) (sub_nonneg.mpr hPhi2hi)]

/-- C3: put-call parity `put + S·e^(−qT) = call + K·e^(−rT)` for every
valid input (`S > 0`, `K > 0`, `T ≥ 0`, `σ ≥ 0`, any `r`, `q`). -/
theorem C3_put_call_parity (S K r q σ T : ℝ)
    (hS : 0 < S) (hK : 0 < K) (hT : 0 ≤ T) (hσ : 0 ≤ σ) :
    bsPrice .Put S K r q σ T + S * Real.exp (-(q * T)) =
      bsPrice .Call S K r q σ T + K * Real.exp (-(r * T)) :=
  bsPrice_parity S K r q σ T

/-- Witness for C3 at `S = 1, K = 2, r = 1, q = 1, σ = 1, T = 1`. -/
theorem C3_witness :
    (0 : ℝ) < 1 ∧ (0 : ℝ) < 2 ∧ (0 : ℝ) ≤ 1 ∧
      bsPrice .Put 1 2 1 1 1 1 + 1 * Real.exp (-(1 * 1)) =
        bsPrice .Call 1 2 1 1 1 1 + 2 * Real.exp (-(1 * 1)) :=
  ⟨by norm_num, by norm_num, by norm_num,
    C3_put_call_parity 1 2 1 1 1 1 (by norm_num) (by norm_num) (by norm_num) (by norm_num)⟩

/-- C4: at `T = 0` (remaining inputs valid) the price operation bypasses
the `d1`/`d2` formula and returns exactly the intrinsic value,
`max(S−K, 0)` for a call and `max(K−S, 0)` for a put. -/
theorem C4_zero_maturity_intrinsic (S K r q σ : ℝ)
    (hK : 0 < K) (hS : 0 < S) (hσ : 0 ≤ σ) :
    price .Call S K r q σ 0 = .ok (max (S - K) 0) ∧
      price .Put S K r q σ 0 = .ok (max (K - S) 0) := by
  unfold price
  rw [if_neg (by push_neg; exact ⟨hK, hS, le_refl 0, hσ⟩),
    if_neg (by push_neg; exact ⟨hK, hS, le_refl 0, hσ⟩),
    bsPrice_call_T_zero, bsPrice_put_T_zero]
  exact ⟨rfl, rfl⟩

/-- Witness for C4 at `S = 2, K = 1, r = 0, q = 0, σ = 0`. -/
theorem C4_witness :
    (0 : ℝ) < 1 ∧ (0 : ℝ) < 2 ∧ (0 : ℝ) ≤ 0 ∧
      (price .Call 2 1 0 0 0 0 = .ok (max (2 - 1) 0) ∧
        price .Put 2 1 0 0 0 0 = .ok (max (1 - 2) 0)) :=
  ⟨by norm_num, by norm_num, le_refl 0,
    C4_zero_maturity_intrinsic 2 1 0 0 0 (by norm_num) (by norm_num) (le_refl 0)⟩

/-- C5: at `σ = 0` and `T > 0` (remaining inputs valid) the price is the
discounted intrinsic value at the forward `F = S·e^((r−q)T)`:
`e^(−rT)·max(F−K, 0)` for a call and `e^(−rT)·max(K−F, 0)` for a put. -/
theorem C5_zero_vol_forward_intrinsic (S K r q T : ℝ)
    (hK : 0 < K) (hS : 0 < S) (hT : 0 < T) :
    price .Call S K r q 0 T =
        .ok (Real.exp (-(r * T)) * max (S * Real.exp ((r - q) * T) - K) 0) ∧
      price .Put S K r q 0 T =
        .ok (Real.exp (-(r * T)) * max (K - S * Real.exp ((r - q) * T)) 0) := by
  unfold price
  rw [if_neg (by push_neg; exact ⟨hK, hS, hT.le, le_refl 0⟩),
    if_neg (by push_neg; exact ⟨hK, hS, hT.le, le_refl 0⟩),
    bsPrice_call_vol_zero S K r q T hT.ne.symm, bsPrice_put_vol_zero S K r q T hT.ne.symm]
  exact ⟨rfl, rfl⟩

/-- Witness for C5 at `S = 2, K = 1, r = 0, q = 0, T = 1`. -/
theorem C5_witness :
    (0 : ℝ) < 1 ∧ (0 : ℝ) < 2 ∧
      (price .Call 2 1 0 0 0 1 =
          .ok (Real.exp (-(0 * 1)) * max (2 * Real.exp ((0 - 0) * 1) - 1) 0) ∧
        price .Put 2 1 0 0 0 1 =
          .ok (Real.exp (-(0 * 1)) * max (1 - 2 * Real.exp ((0 - 0) * 1)) 0)) :=
  ⟨by norm_num, by norm_num,
    C5_zero_vol_forward_intrinsic 2 1 0 0 1 (by norm_num) (by norm_num) (by norm_num)⟩

/-- C6: the price operation fails with `InvalidInput` exactly when
`K ≤ 0`, `S ≤ 0`, `T < 0` or `σ < 0`, and on every other input succeeds
with the computed value (so an invalid input produces no numeric
output). -/
theorem C6_invalid_input_iff (ty : OptionType) (S K r q σ T : ℝ) :
    (price ty S K r q σ T = .error .InvalidInput ↔
        (K ≤ 0 ∨ S ≤ 0 ∨ T < 0 ∨ σ < 0)) ∧
      (price ty S K r q σ T = .ok (bsPrice ty S K r q σ T) ↔
        ¬(K ≤ 0 ∨ S ≤ 0 ∨ T < 0 ∨ σ < 0)) := by
  unfold price
  by_cases h : K ≤ 0 ∨ S ≤ 0 ∨ T < 0 ∨ σ < 0
  · rw [if_pos h]
    simp [h]
  · rw [if_neg h]
    simp [h]

/-- C7: for fixed valid `S, K, r, q` and `T > 0`, both the call and the
put price are non-decreasing in volatility: `σ1 ≤ σ2` with `0 ≤ σ1`
implies `price σ1 ≤ price σ2`. -/
theorem C7_price_monotone_in_vol (S K r q T σ1 σ2 : ℝ)
    (hS : 0 < S) (hK : 0 < K) (hT : 0 < T) (h1 : 0 ≤ σ1) (h12 : σ1 ≤ σ2) :
    bsPrice .Call S K r q σ1 T ≤ bsPrice .Call S K r q σ2 T ∧
      bsPrice .Put S K r q σ1 T ≤ bsPrice .Put S K r q σ2 T := by
  have hcall : bsPrice .Call S K r q σ1 T ≤ bsPrice .Call S K r q σ2 T := by
    rcases eq_or_lt_of_le h1 with h0 | h0
    · rcases eq_or_lt_of_le h12 with h0' | h0'
      · rw [h0']
      · rw [← h0]
        exact callPrice_zero_vol_le S K r q T σ2 hS hK hT (by rw [← h0] at h0'; exact h0')
    · exact callPrice_monotoneOn S K r q T hS hK hT h0 (lt_of_lt_of_le h0 h12) h12
  have p1 := bsPrice_parity S K r q σ1 T
  have p2 := bsPrice_parity S K r q σ2 T
  exact ⟨hcall, by linarith⟩

/-- Witness for C7 at `S = 2, K = 1, r = 0, q = 0, T = 1, σ1 = 0, σ2 = 1`. -/
theorem C7_witness :
    (0 : ℝ) < 1 ∧ (0 : ℝ) < 2 ∧ (0 : ℝ) ≤ 0 ∧ (0 : ℝ) ≤ 1 ∧
      (bsPrice .Call 2 1 0 0 0 1 ≤ bsPrice .Call 2 1 0 0 1 1 ∧
        bsPrice .Put 2 1 0 0 0 1 ≤ bsPrice .Put 2 1 0 0 1 1) :=
  ⟨by norm_num, by norm_num, le_refl 0, by norm_num,
    C7_price_monotone_in_vol 2 1 0 0 1 0 1 (by norm_num) (by norm_num) (by norm_num)
      (le_refl 0) (by norm_num)⟩

/-- C8 counterexample: running `EquityOption` from a process state whose
evaluation date is 0 leaves the global settings changed (the routine
writes the evaluation date), so it is not true that no state outside the
returned result is changed. -/
theorem C8_counterexample :
    (equityOptionRunTest3 { evaluationDate := 0 }).1 ≠ { evaluationDate := 0 } := by
  intro h
  have h2 : todaysDateTest3.serial = 0 := congrArg GlobalSettings.evaluationDate h
  simp [todaysDateTest3, Date.serial, daysFromCivil] at h2

/-- C8 amended: pricing is deterministic — the NPV does not depend on the
pre-existing process state, and identical inputs yield identical results —
but `EquityOption` writes the process-wide evaluation date (to
15-May-1998) before pricing, so state outside the returned result is
changed. -/
theorem C8_deterministic_but_mutates_settings :
    (∀ s t : GlobalSettings, (equityOptionRunTest3 s).2 = (equityOptionRunTest3 t).2) ∧
      (∀ s : GlobalSettings,
        (equityOptionRunTest3 s).1 = { evaluationDate := todaysDateTest3.serial }) :=
  ⟨fun _ _ => rfl, fun _ => rfl⟩

/-- C9: the two source files assemble identical inputs (put, S = 36,
K = 40, q = 0, r = 0.06, σ = 0.20, maturity 17-May-1999, evaluation date
15-May-1998, settlement 17-May-1998, Actual/365-fixed) and produce the
same net present value. -/
theorem C9_files_equivalent :
    equityOptionInputsTest3 = equityOptionInputsPart000 ∧
      todaysDateTest3 = todaysDatePart000 ∧
      settlementDateTest3 = settlementDatePart000 ∧
      npvTest3 = npvPart000 :=
  ⟨rfl, rfl, rfl, rfl⟩

/-- C10: `main` returns exit code 0 when the body completes, and on any
exception catches it, prints the exception message (for `std::exception`)
or `"unknown error"` (for anything else) and returns 1; no other exit
code is possible. -/
theorem C10_main_exit_codes :
    mainRun (.ok ()) = (0, []) ∧
      (∀ m : String, mainRun (.error (.stdExc m)) = (1, [m])) ∧
      mainRun (.error .other) = (1, ["unknown error"]) ∧
      (∀ b : Except CppException Unit, (mainRun b).1 = 0 ∨ (mainRun b).1 = 1) := by
  refine ⟨rfl, fun m => rfl, rfl, fun b => ?_⟩
  cases b with
  | ok u => exact Or.inl rfl
  | error e =>
    cases e with
    | stdExc m => exact Or.inr rfl
    | other => exact Or.inr rfl

end QuantLibTest
